import Mathlib

/-!
Verification of chalvern/grpc-go client-side RPC core.

Shallow embedding of the Go sources:
* `service_config.go` (src/unnamed/part_001): `parseDuration`, `min`, `getMaxSize`
* `stream.go` (src/unnamed/part_002): `clientStream.finish`, `csAttempt.sendMsg`,
  `csAttempt.recvMsg`, the timeout-context derivation in `newClientStream`
* `call.go`: the unary `invoke` retry loop
* `resolver_conn_wrapper.go` (inside src/Makefile): `split2`, `parseTarget`,
  `ccResolverWrapper.NewAddress`, `ccResolverWrapper.NewServiceConfig`

Go strings are modelled as `List Char`, Go `*T` as `Option T`, `time.Duration`
(an int64 count of nanoseconds) as `Int`, fallible functions as `Option`-returning
functions. Channel buffers are modelled as lists bounded by the channel capacity.
-/

/-- The gRPC status codes used by the embedded code paths (codes package). -/
inductive StatusCode
  | ok
  | cancelled
  | unknown
  | deadlineExceeded
  | resourceExhausted
  | internal
  | unavailable
deriving DecidableEq, Repr

/-- The Go `error` values that flow through the embedded client-stream paths.
`eof` is `io.EOF`; `status c` is an error produced by the status package;
`protocolViolation` is the `errors.New("grpc: client streaming protocol
violation: get <nil>, want <EOF>")` value created in `csAttempt.recvMsg`;
`other n` stands for any further distinct plain error. -/
inductive GoError
  | eof
  | status (c : StatusCode)
  | ctxCanceled
  | ctxDeadlineExceeded
  | transportConnError
  | protocolViolation
  | errClientConnClosing
  | other (n : Nat)
deriving DecidableEq, Repr

/-- Modelled from the spec: `toRPCErr` lives in `rpc_util.go`, which is not among
the provided sources (only its callers in `stream.go` and `call.go` are). Per
spec §7, errors are mapped to status codes as follows: context timeout →
DeadlineExceeded, context cancelled → Cancelled, transport connection error →
Unavailable, "unexpected extra message on unary" (the protocol-violation error)
→ Internal, and any unknown non-status error → Unknown; status errors and
`io.EOF` pass through unchanged. -/
def toRPCErr : GoError → GoError
  | .eof => .eof
  | .status c => .status c
  | .ctxCanceled => .status .cancelled
  | .ctxDeadlineExceeded => .status .deadlineExceeded
  | .transportConnError => .status .unavailable
  | .protocolViolation => .status .internal
  | .errClientConnClosing => .status .unknown
  | .other _ => .status .unknown

/-! ### service_config.go: `min` and `getMaxSize` -/

/-- Embeds `func min(a, b *int) *int` (service_config.go): returns the pointer
whose value is smaller; values modelled directly. -/
def goMin (a b : Int) : Int :=
  if a < b then a else b

/-- Embeds `func getMaxSize(mcMax, doptMax *int, defaultVal int) *int`
(service_config.go). The Go function never returns nil, so the result is a
plain `Int`. -/
def getMaxSize (mcMax doptMax : Option Int) (defaultVal : Int) : Int :=
  match mcMax, doptMax with
  | none, none => defaultVal
  | some m, some d => goMin m d
  | some m, none => m
  | none, some d => d

/-! ### resolver_conn_wrapper.go: `split2` and `parseTarget` -/

/-- Splits `s` at the first occurrence of `sep`, returning the parts before and
after it, or `none` when `sep` does not occur in `s`. This is the search
underlying Go's `strings.SplitN`. -/
def splitFirst (sep : List Char) : List Char → Option (List Char × List Char)
  | [] => if sep = [] then some ([], []) else none
  | c :: cs =>
    if sep.isPrefixOf (c :: cs) then
      some ([], (c :: cs).drop sep.length)
    else
      match splitFirst sep cs with
      | none => none
      | some (a, b) => some (c :: a, b)

/-- Embeds Go `strings.SplitN(s, sep, n)` for `n ≥ 0` (nonempty `sep`):
at most `n` parts, the last part holding the unsplit remainder. -/
def splitN (sep s : List Char) (n : Nat) : List (List Char) :=
  match n with
  | 0 => []
  | 1 => [s]
  | k + 2 =>
    match splitFirst sep s with
    | none => [s]
    | some (a, b) => a :: splitN sep b (k + 1)

/-- Embeds `func split2(s, sep string) (string, string, bool)`
(resolver_conn_wrapper.go): the values of `strings.SplitN(s, sep, 2)`, or
`("", "", false)` when `sep` is not found. -/
def split2 (s sep : List Char) : List Char × List Char × Bool :=
  match splitN sep s 2 with
  | [a, b] => (a, b, true)
  | _ => ([], [], false)

/-- The `resolver.Target` struct: scheme, authority, endpoint. -/
structure Target where
  scheme : List Char
  authority : List Char
  endpoint : List Char
deriving DecidableEq, Repr

/-- Embeds `func parseTarget(target string) (ret resolver.Target)`
(resolver_conn_wrapper.go): split on `"://"`, then split the remainder on
`"/"`; if either split fails, the whole input is the endpoint. -/
def parseTarget (target : List Char) : Target :=
  let r1 := split2 target "://".toList
  if r1.2.2 = false then
    ⟨[], [], target⟩
  else
    let r2 := split2 r1.2.1 "/".toList
    if r2.2.2 = false then
      ⟨[], [], target⟩
    else
      ⟨r1.1, r2.1, r2.2.1⟩

/-- Reassembles a target triple into the string `scheme://authority/endpoint`. -/
def assembleTarget (t : Target) : List Char :=
  t.scheme ++ "://".toList ++ t.authority ++ "/".toList ++ t.endpoint

/-! Helper lemmas about `splitFirst`. -/

theorem splitFirst_eq_some (sep : List Char) :
    ∀ (s a b : List Char), splitFirst sep s = some (a, b) → s = a ++ sep ++ b := by
  intro s
  induction s with
  | nil =>
    intro a b h
    simp only [splitFirst] at h
    by_cases hsep : sep = ([] : List Char)
    · rw [if_pos hsep] at h
      simp only [Option.some.injEq, Prod.mk.injEq] at h
      simp [← h.1, ← h.2, hsep]
    · rw [if_neg hsep] at h
      exact absurd h (by simp)
  | cons c cs ih =>
    intro a b h
    simp only [splitFirst] at h
    by_cases hp : sep.isPrefixOf (c :: cs)
    · rw [if_pos hp] at h
      simp only [Option.some.injEq, Prod.mk.injEq] at h
      obtain ⟨t, ht⟩ := List.isPrefixOf_iff_prefix.mp hp
      rw [← h.1, ← h.2, ← ht]
      simp
    · rw [if_neg hp] at h
      cases hrec : splitFirst sep cs with
      | none => simp [hrec] at h
      | some p =>
        obtain ⟨a', b'⟩ := p
        simp only [hrec, Option.some.injEq, Prod.mk.injEq] at h
        rw [← h.1, ← h.2]
        simp [ih a' b' hrec]

theorem splitFirst_eq_none (sep : List Char) (hsep : sep ≠ []) :
    ∀ (s : List Char), splitFirst sep s = none ↔ ¬ ∃ pre post, s = pre ++ sep ++ post := by
  intro s
  induction s with
  | nil =>
    have h1 : splitFirst sep [] = none := by simp [splitFirst, hsep]
    simp only [h1, true_iff]
    rintro ⟨pre, post, hp⟩
    have hlen := congrArg List.length hp
    have hs : 0 < sep.length := List.length_pos.mpr hsep
    simp [List.length_append] at hlen
    omega
  | cons c cs ih =>
    constructor
    · intro h
      rintro ⟨pre, post, hdecomp⟩
      simp only [splitFirst] at h
      by_cases hp : sep.isPrefixOf (c :: cs)
      · rw [if_pos hp] at h
        exact absurd h (by simp)
      · rw [if_neg hp] at h
        cases hrec : splitFirst sep cs with
        | none =>
          cases pre with
          | nil =>
            apply hp
            apply List.isPrefixOf_iff_prefix.mpr
            exact ⟨post, by simpa using hdecomp.symm⟩
          | cons p ps =>
            simp only [List.cons_append, List.cons.injEq] at hdecomp
            exact (ih.mp hrec) ⟨ps, post, hdecomp.2⟩
        | some p =>
          obtain ⟨a, b⟩ := p
          simp [hrec] at h
    · intro h
      simp only [splitFirst]
      by_cases hp : sep.isPrefixOf (c :: cs)
      · obtain ⟨t, ht⟩ := List.isPrefixOf_iff_prefix.mp hp
        exact absurd ⟨[], t, by simp [← ht]⟩ h
      · rw [if_neg hp]
        cases hrec : splitFirst sep cs with
        | none => simp [hrec]
        | some p =>
          obtain ⟨a, b⟩ := p
          have hd := splitFirst_eq_some sep cs a b hrec
          exact absurd ⟨c :: a, b, by simp [hd]⟩ h

theorem split2_eq (s sep : List Char) :
    split2 s sep = match splitFirst sep s with
      | none => ([], [], false)
      | some (a, b) => (a, b, true) := by
  simp only [split2, splitN]
  cases splitFirst sep s with
  | none => rfl
  | some p => obtain ⟨a, b⟩ := p; rfl

/-- C6: `getMaxSize` returns the minimum of the two values when both pointers
are non-nil, the sole non-nil value when exactly one is set, and the built-in
default when both are nil. -/
theorem getMaxSize_spec : ∀ (a b d : Int),
    getMaxSize (some a) (some b) d = min a b ∧
    getMaxSize (some a) none d = a ∧
    getMaxSize none (some b) d = b ∧
    getMaxSize none none d = d := by
  intro a b d
  refine ⟨?_, rfl, rfl, rfl⟩
  simp only [getMaxSize, goMin]
  by_cases h : a < b
  · rw [if_pos h]
    exact (min_eq_left h.le).symm
  · rw [if_neg h]
    exact (min_eq_right (not_lt.mp h)).symm

/-- C8: `parseTarget` returns `{scheme: "", authority: "", endpoint: target}`
when the target does not contain `"://"`; also when it contains `"://"` but
the remainder has no `'/'`; and on a well-formed `scheme://authority/endpoint`
input it returns that triple, the triple reassembles to the original string,
and re-parsing the reassembled string yields the same triple (idempotence). -/
theorem parseTarget_cases_idem : ∀ s : List Char,
    ((¬ ∃ pre post, s = pre ++ "://".toList ++ post) → parseTarget s = ⟨[], [], s⟩)
    ∧ (∀ a r, splitFirst "://".toList s = some (a, r) →
        (¬ ∃ pre post, r = pre ++ "/".toList ++ post) → parseTarget s = ⟨[], [], s⟩)
    ∧ (∀ a r b c, splitFirst "://".toList s = some (a, r) →
        splitFirst "/".toList r = some (b, c) →
        parseTarget s = ⟨a, b, c⟩ ∧ assembleTarget ⟨a, b, c⟩ = s ∧
        parseTarget (assembleTarget (parseTarget s)) = parseTarget s) := by
  intro s
  have e1 : "://".toList = [':', '/', '/'] := rfl
  have e2 : "/".toList = ['/'] := rfl
  refine ⟨?_, ?_, ?_⟩
  · intro h
    have h0 : splitFirst "://".toList s = none :=
      (splitFirst_eq_none _ (by decide) s).mpr h
    rw [e1] at h0
    simp [parseTarget, split2_eq, h0]
  · intro a r ha hr
    have h1 : splitFirst "/".toList r = none :=
      (splitFirst_eq_none _ (by decide) r).mpr hr
    rw [e1] at ha
    rw [e2] at h1
    simp [parseTarget, split2_eq, ha, h1]
  · intro a r b c ha hc
    have hs := splitFirst_eq_some _ s a r ha
    have hr := splitFirst_eq_some _ r b c hc
    have ha' := ha
    have hc' := hc
    rw [e1] at ha'
    rw [e2] at hc'
    have hpt : parseTarget s = ⟨a, b, c⟩ := by
      simp [parseTarget, split2_eq, ha', hc']
    have has : assembleTarget ⟨a, b, c⟩ = s := by
      simp only [assembleTarget]
      rw [hs, hr]
      simp
    refine ⟨hpt, has, ?_⟩
    rw [hpt, has, hpt]

theorem parseTarget_cases_idem_witness :
    parseTarget "abc".toList = ⟨[], [], "abc".toList⟩
    ∧ parseTarget "a://bc".toList = ⟨[], [], "a://bc".toList⟩
    ∧ (parseTarget "a://b/c".toList = ⟨"a".toList, "b".toList, "c".toList⟩
       ∧ assembleTarget ⟨"a".toList, "b".toList, "c".toList⟩ = "a://b/c".toList
       ∧ parseTarget (assembleTarget (parseTarget "a://b/c".toList)) =
           parseTarget "a://b/c".toList) :=
  ⟨(parseTarget_cases_idem "abc".toList).1
      ((splitFirst_eq_none "://".toList (by decide) "abc".toList).mp (by decide)),
   (parseTarget_cases_idem "a://bc".toList).2.1 "a".toList "bc".toList (by decide)
      ((splitFirst_eq_none "/".toList (by decide) "bc".toList).mp (by decide)),
   (parseTarget_cases_idem "a://b/c".toList).2.2 "a".toList "b/c".toList
      "b".toList "c".toList (by decide) (by decide)⟩

/-! ### service_config.go: `parseDuration` -/

/-- Whether a character is a decimal digit. -/
def isDigitChar (c : Char) : Bool :=
  decide ('0' ≤ c) && decide (c ≤ '9')

/-- Numeric value of a list of decimal digit characters (most significant first). -/
def digitsVal (ds : List Char) : Nat :=
  ds.foldl (fun acc c => acc * 10 + (c.toNat - '0'.toNat)) 0

/-- Embeds Go `strconv.ParseInt(s, 10, bitSize)`: an optional leading `'+'` or
`'-'` sign followed by at least one decimal digit, the signed value lying in
`[-2^(bitSize-1), 2^(bitSize-1) - 1]`; `none` on any syntax or range error. -/
def strconvParseInt (s : List Char) (bitSize : Nat) : Option Int :=
  let (neg, ds) :=
    match s with
    | '+' :: r => (false, r)
    | '-' :: r => (true, r)
    | r => (false, r)
  if ds = [] then none
  else if ds.all isDigitChar = false then none
  else
    let v : Int := if neg then -(digitsVal ds : Int) else (digitsVal ds : Int)
    if -(2 ^ (bitSize - 1) : Int) ≤ v ∧ v ≤ (2 ^ (bitSize - 1) : Int) - 1 then some v
    else none

/-- The whole-seconds part of `parseDuration`: an empty `ss[0]` contributes
nothing (second component `false` records that no digits were seen); otherwise
`strconv.ParseInt(ss[0], 10, 32)` scaled by `time.Second` = 10^9 ns. -/
def parseIntPart (p : List Char) : Option (Int × Bool) :=
  if p = [] then some (0, false)
  else
    match strconvParseInt p 32 with
    | none => none
    | some i => some (i * 1000000000, true)

/-- The fractional part of `parseDuration`: empty contributes nothing; a part
longer than nine characters is an error; otherwise
`strconv.ParseInt(ss[1], 10, 64)` right-padded with zeros to nine digits
(multiplied by `10^(9 - len)`). -/
def parseFracPart (p : List Char) : Option (Int × Bool) :=
  if p = [] then some (0, false)
  else if p.length > 9 then none
  else
    match strconvParseInt p 64 with
    | none => none
    | some f => some (f * (10 : Int) ^ (9 - p.length), true)

/-- Embeds `func parseDuration(s *string) (*time.Duration, error)`
(service_config.go). The outer `Option` is the error (`none` = parse error);
the inner `Option Int` is the returned `*time.Duration` in nanoseconds
(`some none` = nil input, nil duration). The input must end in `'s'`; the body
is split on `'.'` by `strings.SplitN(body, ".", 3)` into at most two parts,
else it is malformed; at least one part must be nonempty. -/
def parseDuration (s : Option (List Char)) : Option (Option Int) :=
  match s with
  | none => some none
  | some str =>
    if (['s'].isSuffixOf str) = false then none
    else
      match splitN ['.'] str.dropLast 3 with
      | [p0] =>
        match parseIntPart p0 with
        | none => none
        | some (d, hasDigits) => if hasDigits then some (some d) else none
      | [p0, p1] =>
        match parseIntPart p0, parseFracPart p1 with
        | some (d1, h1), some (d2, h2) =>
          if h1 || h2 then some (some (d1 + d2)) else none
        | _, _ => none
      | _ => none

/-- The duration grammar exactly as the spec states it: a string ending in
`s`; the body has at most one decimal point splitting integer and fractional
digit strings; the fractional part has at most nine digits; at least one of
the two parts must be present. (This is the spec-side definition used to
compare against the code-side `parseDuration`.) -/
def specDurationGrammar (str : List Char) : Bool :=
  (['s'].isSuffixOf str) &&
    (let body := str.dropLast
     let ip := body.takeWhile (fun c => c ≠ '.')
     let rest := body.dropWhile (fun c => c ≠ '.')
     match rest with
     | [] => !ip.isEmpty && ip.all isDigitChar
     | _ :: fp =>
       ip.all isDigitChar && fp.all isDigitChar && decide (fp.length ≤ 9) &&
         (!ip.isEmpty || !fp.isEmpty))

/-- The acceptance condition actually implemented by `parseDuration`: a string
ending in `s` whose body, split at most once on `'.'`, has each nonempty part
a valid optionally-signed Go integer (the whole part in 32 bits, the
fractional part at most nine characters and in 64 bits), with at least one
part nonempty. -/
def codeDurationGrammar (str : List Char) : Bool :=
  (['s'].isSuffixOf str) &&
    match splitN ['.'] str.dropLast 3 with
    | [p0] => decide (p0 ≠ []) && (strconvParseInt p0 32).isSome
    | [p0, p1] =>
      (decide (p0 = []) || (strconvParseInt p0 32).isSome) &&
        (decide (p1 = []) || (decide (p1.length ≤ 9) && (strconvParseInt p1 64).isSome)) &&
        (decide (p0 ≠ []) || decide (p1 ≠ []))
    | _ => false

theorem parseDuration_isSome_eq_codeGrammar :
    ∀ str : List Char, (parseDuration (some str)).isSome = codeDurationGrammar str := by
  intro str
  by_cases hsuf : (['s'].isSuffixOf str) = true
  · simp only [parseDuration, codeDurationGrammar, hsuf]
    rw [if_neg (by simp)]
    simp only [Bool.true_and]
    cases hsp : splitN ['.'] str.dropLast 3 with
    | nil => simp
    | cons p0 rest =>
      cases rest with
      | nil =>
        by_cases hp0 : p0 = []
        · subst hp0
          simp [parseIntPart]
        · simp only [parseIntPart, if_neg hp0]
          cases hpi : strconvParseInt p0 32 with
          | none => simp [hp0]
          | some i => simp [hp0]
      | cons p1 rest2 =>
        cases rest2 with
        | nil =>
          simp only [parseIntPart, parseFracPart]
          by_cases hp0 : p0 = []
          · subst hp0
            simp only [decide_eq_true_eq, if_pos rfl]
            by_cases hp1 : p1 = []
            · subst hp1
              simp
            · rw [if_neg hp1]
              by_cases hl : p1.length > 9
              · rw [if_pos hl]
                simp [hp1, Nat.not_le.mpr hl]
              · rw [if_neg hl]
                cases hpf : strconvParseInt p1 64 with
                | none => simp [hp1, Nat.not_lt.mp hl]
                | some f => simp [hp1, Nat.not_lt.mp hl]
          · rw [if_neg hp0]
            cases hpi : strconvParseInt p0 32 with
            | none => simp [hp0]
            | some i =>
              by_cases hp1 : p1 = []
              · subst hp1
                simp [hp0]
              · rw [if_neg hp1]
                by_cases hl : p1.length > 9
                · rw [if_pos hl]
                  simp [hp0, hp1, Nat.not_le.mpr hl]
                · rw [if_neg hl]
                  cases hpf : strconvParseInt p1 64 with
                  | none => simp [hp0, hp1, Nat.not_lt.mp hl]
                  | some f => simp [hp0, hp1, Nat.not_lt.mp hl]
        | cons p2 rest3 => simp
  · rw [Bool.not_eq_true] at hsuf
    simp [parseDuration, codeDurationGrammar, hsuf]

/-- C7 counterexample: `parseDuration` accepts `"-1s"` (Go `strconv.ParseInt`
permits a leading sign), yet the spec grammar — digit-only integer and
fractional parts — rejects it; so `parseDuration` does not accept exactly the
strings of the stated grammar. -/
theorem parseDuration_grammar_counterexample :
    parseDuration (some ("-1s".toList)) = some (some (-1000000000))
    ∧ specDurationGrammar ("-1s".toList) = false
    ∧ ¬ (((parseDuration (some ("-1s".toList))).isSome = true)
          ↔ specDurationGrammar ("-1s".toList) = true) := by
  refine ⟨by decide, by decide, ?_⟩
  intro h
  exact absurd (h.mp (by decide)) (by decide)

/-- C7 (amended): `parseDuration` accepts exactly the strings ending in `'s'`
whose body, split at most once on `'.'`, has every nonempty part an
optionally-signed decimal integer (the whole part within signed 32-bit range;
the fractional part at most nine characters, within signed 64-bit range,
right-padded with zeros to nine digits to give nanoseconds), with at least one
part nonempty; in particular it accepts `"1s"`, `"0.500s"`, `"1.000000001s"`
with their canonical values and rejects `"1"`, `"s"`, `"1.2.3s"` and any
fractional part longer than nine digits. -/
theorem parseDuration_grammar_amended :
    (∀ str : List Char, (parseDuration (some str)).isSome = codeDurationGrammar str)
    ∧ parseDuration (some ("1s".toList)) = some (some 1000000000)
    ∧ parseDuration (some ("0.500s".toList)) = some (some 500000000)
    ∧ parseDuration (some ("1.000000001s".toList)) = some (some 1000000001)
    ∧ parseDuration (some ("1".toList)) = none
    ∧ parseDuration (some ("s".toList)) = none
    ∧ parseDuration (some ("1.2.3s".toList)) = none
    ∧ parseDuration (some ("1.0000000001s".toList)) = none :=
  ⟨parseDuration_isSome_eq_codeGrammar, by decide, by decide, by decide,
   by decide, by decide, by decide, by decide⟩

/-! ### stream.go: the timeout-derived context in `newClientStream` -/

/-- The two ways `newClientStream` derives the stream context from the caller
context: `context.WithTimeout(ctx, *mc.Timeout)` or `context.WithCancel(ctx)`. -/
inductive CtxKind
  | withTimeout (t : Int)
  | withCancel
deriving DecidableEq, Repr

/-- Embeds the context-derivation branch of `newClientStream` (stream.go):
`if mc.Timeout != nil && *mc.Timeout >= 0` then a timeout context is derived,
otherwise only a cancelable context. -/
def newClientStreamCtx (mcTimeout : Option Int) : CtxKind :=
  match mcTimeout with
  | some t => if t ≥ 0 then CtxKind.withTimeout t else CtxKind.withCancel
  | none => CtxKind.withCancel

/-- C10: `parseDuration` accepts a leading minus sign — `"-1s"` parses to the
negative duration -10^9 ns — and `newClientStream` derives a deadline from a
method-config timeout only when it is non-negative, so a negative parsed
timeout behaves exactly as an absent one. -/
theorem parseDuration_negative_timeout :
    parseDuration (some ("-1s".toList)) = some (some (-1000000000))
    ∧ (∀ t : Int, t < 0 → newClientStreamCtx (some t) = CtxKind.withCancel
        ∧ newClientStreamCtx (some t) = newClientStreamCtx none)
    ∧ (∀ t : Int, 0 ≤ t → newClientStreamCtx (some t) = CtxKind.withTimeout t) := by
  refine ⟨by decide, ?_, ?_⟩
  · intro t ht
    have hn : ¬ (t ≥ 0) := not_le.mpr ht
    constructor
    · simp [newClientStreamCtx, hn]
    · simp [newClientStreamCtx, hn]
  · intro t ht
    simp [newClientStreamCtx, ht]

theorem parseDuration_negative_timeout_witness :
    newClientStreamCtx (some (-1000000000)) = CtxKind.withCancel
    ∧ newClientStreamCtx (some 5) = CtxKind.withTimeout 5 :=
  ⟨(parseDuration_negative_timeout.2.1 (-1000000000) (by decide)).1,
   parseDuration_negative_timeout.2.2 5 (by decide)⟩

/-! ### stream.go: `clientStream.finish` -/

/-- The observable effects of `clientStream.finish` on one stream: the
`finished` flag guarded by `cs.mu`, the arguments of the `cs.attempt.finish`
calls made so far, the number of per-option `after` hooks run, and the number
of `cs.cancel()` calls. -/
structure FinishEffects where
  finished : Bool
  attemptFinishArgs : List (Option GoError)
  afterHookRuns : Nat
  cancelCalls : Nat
deriving DecidableEq, Repr

/-- The state of a freshly created client stream: not finished, no
termination action performed yet. -/
def streamStart : FinishEffects :=
  ⟨false, [], 0, 0⟩

/-- Embeds `func (cs *clientStream) finish(err error)` (stream.go). `numOpts`
is `len(cs.opts)`; `err = none` models a nil error. An `io.EOF` error is
normalised to nil; if the `finished` flag is already set the call returns
without further effect; otherwise it sets the flag, calls
`cs.attempt.finish(err)` once, runs every option's `after` hook, and cancels
the stream context. -/
def clientStreamFinish (numOpts : Nat) (s : FinishEffects) (err : Option GoError) :
    FinishEffects :=
  let e := if err = some GoError.eof then none else err
  if s.finished then s
  else
    { finished := true
      attemptFinishArgs := s.attemptFinishArgs ++ [e]
      afterHookRuns := s.afterHookRuns + numOpts
      cancelCalls := s.cancelCalls + 1 }

theorem clientStreamFinish_of_finished (numOpts : Nat) (s : FinishEffects)
    (err : Option GoError) (h : s.finished = true) :
    clientStreamFinish numOpts s err = s := by
  simp [clientStreamFinish, h]

theorem clientStreamFinish_foldl_of_finished (numOpts : Nat) :
    ∀ (es : List (Option GoError)) (s : FinishEffects), s.finished = true →
      es.foldl (clientStreamFinish numOpts) s = s := by
  intro es
  induction es with
  | nil => intro s h; rfl
  | cons e rest ih =>
    intro s h
    simp only [List.foldl_cons, clientStreamFinish_of_finished numOpts s e h]
    exact ih s h

/-- C1: `finish(err)` is idempotent. The first call on an unfinished stream
sets the `finished` flag and performs the termination actions (one
`attempt.finish` with the EOF-normalised error, the per-option `after` hooks,
one context cancel); a call on a finished stream returns without any effect;
and from a fresh stream any further sequence of `finish` calls leaves the
state of the first call unchanged, so each action runs at most once. -/
theorem clientStreamFinish_idempotent :
    ∀ (numOpts : Nat) (s : FinishEffects) (e e' : Option GoError)
      (es : List (Option GoError)),
      (s.finished = false →
        clientStreamFinish numOpts s e =
          ⟨true, s.attemptFinishArgs ++ [if e = some GoError.eof then none else e],
           s.afterHookRuns + numOpts, s.cancelCalls + 1⟩)
      ∧ (s.finished = true → clientStreamFinish numOpts s e = s)
      ∧ clientStreamFinish numOpts (clientStreamFinish numOpts s e) e' =
          clientStreamFinish numOpts s e
      ∧ es.foldl (clientStreamFinish numOpts) (clientStreamFinish numOpts streamStart e) =
          clientStreamFinish numOpts streamStart e
      ∧ (es.foldl (clientStreamFinish numOpts)
           (clientStreamFinish numOpts streamStart e)).attemptFinishArgs.length = 1
      ∧ (es.foldl (clientStreamFinish numOpts)
           (clientStreamFinish numOpts streamStart e)).cancelCalls = 1 := by
  intro numOpts s e e' es
  have hfin : ∀ (t : FinishEffects) (x : Option GoError),
      t.finished = false → (clientStreamFinish numOpts t x).finished = true := by
    intro t x h
    simp [clientStreamFinish, h]
  have hidem : clientStreamFinish numOpts (clientStreamFinish numOpts s e) e' =
      clientStreamFinish numOpts s e := by
    cases hf : s.finished with
    | true => rw [clientStreamFinish_of_finished numOpts s e hf,
                  clientStreamFinish_of_finished numOpts s e' hf]
    | false => exact clientStreamFinish_of_finished numOpts _ e' (hfin s e hf)
  have hfold : es.foldl (clientStreamFinish numOpts)
      (clientStreamFinish numOpts streamStart e) =
      clientStreamFinish numOpts streamStart e :=
    clientStreamFinish_foldl_of_finished numOpts es _ (hfin streamStart e rfl)
  refine ⟨?_, clientStreamFinish_of_finished numOpts s e, hidem, hfold, ?_, ?_⟩
  · intro h
    simp [clientStreamFinish, h]
  · rw [hfold]
    simp [clientStreamFinish, streamStart]
  · rw [hfold]
    simp [clientStreamFinish, streamStart]

theorem clientStreamFinish_idempotent_witness :
    clientStreamFinish 2 streamStart (some GoError.eof) = ⟨true, [none], 2, 1⟩
    ∧ clientStreamFinish 2 ⟨true, [none], 2, 1⟩ (some (GoError.other 0)) =
        ⟨true, [none], 2, 1⟩ :=
  ⟨(clientStreamFinish_idempotent 2 streamStart (some GoError.eof) none []).1 rfl,
   (clientStreamFinish_idempotent 2 ⟨true, [none], 2, 1⟩ (some (GoError.other 0))
      none []).2.1 rfl⟩

/-! ### stream.go: `csAttempt.sendMsg` -/

/-- The inputs that determine one `csAttempt.sendMsg` call: whether the stream
descriptor has `ClientStreams` set, the results of `encode` and `compress`,
the framed payload length against the effective `maxSendMessageSize`, and the
result of the transport `Write`. -/
structure SendMsgInput where
  clientStreams : Bool
  encodeErr : Option GoError
  compressErr : Option GoError
  payloadLen : Nat
  maxSendMessageSize : Nat
  writeErr : Option GoError
deriving DecidableEq, Repr

/-- The observable outcome of one `csAttempt.sendMsg` call: the error returned
to the caller, whether the transport `Write` was reached, whether
`cs.finish` was invoked by the deferred handler, and whether `cs.sentLast`
was set. -/
structure SendMsgResult where
  err : Option GoError
  writeCalled : Bool
  finishCalled : Bool
  sentLastSet : Bool
deriving DecidableEq, Repr

/-- The body of `csAttempt.sendMsg` before the deferred error rewriting
(stream.go): encode, compress, check the framed payload against
`maxSendMessageSize` (ResourceExhausted on violation), set `sentLast` for
non-client-streaming calls, then `Write`; a transport write error is
converted to `io.EOF`. Returns (error, writeCalled, sentLastSet). -/
def sendMsgRaw (i : SendMsgInput) : Option GoError × Bool × Bool :=
  match i.encodeErr with
  | some e => (some e, false, false)
  | none =>
    match i.compressErr with
    | some e => (some e, false, false)
    | none =>
      if i.payloadLen > i.maxSendMessageSize then
        (some (GoError.status StatusCode.resourceExhausted), false, false)
      else
        match i.writeErr with
        | none => (none, true, !i.clientStreams)
        | some _ => (some GoError.eof, true, !i.clientStreams)

/-- Embeds `func (a *csAttempt) sendMsg(m interface{}) (err error)`
(stream.go), deferred handler included: for non-client-streaming calls an
`io.EOF` result is rewritten to nil, and `cs.finish` runs for any error other
than nil and `io.EOF`. -/
def sendMsg (i : SendMsgInput) : SendMsgResult :=
  let r := sendMsgRaw i
  let e := if r.1 = some GoError.eof ∧ i.clientStreams = false then none else r.1
  { err := e
    writeCalled := r.2.1
    finishCalled := decide (e ≠ none ∧ e ≠ some GoError.eof)
    sentLastSet := r.2.2 }

/-- C3: for non-client-streaming calls `sendMsg` never returns `io.EOF`; a
transport write error becomes `io.EOF` internally and is normalised to a nil
return (the real error left for `RecvMsg`); any error actually returned arose
before the transport write. -/
theorem sendMsg_no_eof_unary :
    ∀ i : SendMsgInput, i.clientStreams = false →
      (sendMsg i).err ≠ some GoError.eof
      ∧ (i.encodeErr = none → i.compressErr = none →
          i.payloadLen ≤ i.maxSendMessageSize → i.writeErr.isSome →
          (sendMsgRaw i).1 = some GoError.eof ∧ (sendMsg i).err = none
            ∧ (sendMsg i).writeCalled = true)
      ∧ ((sendMsg i).err.isSome → (sendMsg i).writeCalled = false) := by
  intro i hcs
  obtain ⟨cs, eErr, cErr, plen, maxlen, wErr⟩ := i
  simp only at hcs
  subst hcs
  refine ⟨?_, ?_, ?_⟩
  · cases eErr with
    | some e =>
      simp only [sendMsg, sendMsgRaw]
      by_cases he : e = GoError.eof
      · subst he; simp
      · simp [he]
    | none =>
      cases cErr with
      | some e =>
        simp only [sendMsg, sendMsgRaw]
        by_cases he : e = GoError.eof
        · subst he; simp
        · simp [he]
      | none =>
        simp only [sendMsg, sendMsgRaw]
        by_cases hp : plen > maxlen
        · rw [if_pos hp]; simp
        · rw [if_neg hp]
          cases wErr <;> simp
  · intro he hc hp hw
    subst he; subst hc
    obtain ⟨w, hwe⟩ := Option.isSome_iff_exists.mp hw
    subst hwe
    simp [sendMsg, sendMsgRaw, Nat.not_lt.mpr hp]
  · intro hsome
    cases eErr with
    | some e =>
      simp [sendMsg, sendMsgRaw]
    | none =>
      cases cErr with
      | some e => simp [sendMsg, sendMsgRaw]
      | none =>
        by_cases hp : plen > maxlen
        · simp [sendMsg, sendMsgRaw, hp]
        · cases wErr with
          | none => simp [sendMsg, sendMsgRaw, hp] at hsome
          | some w => simp [sendMsg, sendMsgRaw, hp] at hsome

theorem sendMsg_no_eof_unary_witness :
    (sendMsg ⟨false, none, none, 4, 10, some GoError.transportConnError⟩).err = none
    ∧ (sendMsg ⟨false, none, none, 4, 10, some GoError.transportConnError⟩).writeCalled
        = true
    ∧ (sendMsgRaw ⟨false, none, none, 4, 10, some GoError.transportConnError⟩).1
        = some GoError.eof :=
  have h := (sendMsg_no_eof_unary ⟨false, none, none, 4, 10,
    some GoError.transportConnError⟩ rfl).2.1 rfl rfl (by decide) (by decide)
  ⟨h.2.1, h.2.2, h.1⟩

/-- C5: when the framed payload exceeds the effective `maxSendMessageSize`,
`sendMsg` returns a ResourceExhausted status error and the transport `Write`
is never reached (no bytes are written). -/
theorem sendMsg_resource_exhausted :
    ∀ i : SendMsgInput, i.encodeErr = none → i.compressErr = none →
      i.payloadLen > i.maxSendMessageSize →
      (sendMsg i).err = some (GoError.status StatusCode.resourceExhausted)
      ∧ (sendMsg i).writeCalled = false
      ∧ (sendMsg i).sentLastSet = false := by
  intro i he hc hp
  obtain ⟨cs, eErr, cErr, plen, maxlen, wErr⟩ := i
  simp only at he hc hp
  subst he; subst hc
  simp [sendMsg, sendMsgRaw, hp]

theorem sendMsg_resource_exhausted_witness :
    (sendMsg ⟨false, none, none, 32, 16, none⟩).err
      = some (GoError.status StatusCode.resourceExhausted)
    ∧ (sendMsg ⟨false, none, none, 32, 16, none⟩).writeCalled = false :=
  have h := sendMsg_resource_exhausted ⟨false, none, none, 32, 16, none⟩
    rfl rfl (by decide)
  ⟨h.1, h.2.1⟩

/-! ### stream.go: `csAttempt.recvMsg` -/

/-- The result of one call of the framed-read helper `recv` as seen by
`csAttempt.recvMsg`: a message decoded successfully, `io.EOF` (end of
stream), or some other error. -/
inductive RecvOutcome
  | ok
  | eofR
  | fail (e : GoError)
deriving DecidableEq, Repr

/-- The inputs determining one `csAttempt.recvMsg` call: whether the stream
descriptor has `ServerStreams` set, the outcomes of the first and (when
reached) second `recv`, and `a.s.Status().Err()` (`none` for an OK status). -/
structure RecvMsgInput where
  serverStreams : Bool
  firstRecv : RecvOutcome
  secondRecv : RecvOutcome
  statusErr : Option GoError
deriving DecidableEq, Repr

/-- The observable outcome of one `csAttempt.recvMsg` call. -/
structure RecvMsgResult where
  err : Option GoError
  secondReadDone : Bool
  finishCalled : Bool
deriving DecidableEq, Repr

/-- The body of `csAttempt.recvMsg` before the deferred handler (stream.go):
on a first-read error, `io.EOF` yields the stream status error (or `io.EOF`
itself when the status is OK) and anything else goes through `toRPCErr`; on
success, server-streaming calls return nil at once, while
non-server-streaming calls issue a second `recv` that must report `io.EOF` —
a second message is the client-streaming protocol violation, and `io.EOF`
yields the status error (nil on OK). Returns (error, secondReadDone). -/
def recvMsgRaw (i : RecvMsgInput) : Option GoError × Bool :=
  match i.firstRecv with
  | RecvOutcome.eofR =>
    (match i.statusErr with
     | some se => some se
     | none => some GoError.eof, false)
  | RecvOutcome.fail e => (some (toRPCErr e), false)
  | RecvOutcome.ok =>
    if i.serverStreams then (none, false)
    else
      match i.secondRecv with
      | RecvOutcome.ok => (some (toRPCErr GoError.protocolViolation), true)
      | RecvOutcome.eofR => (i.statusErr, true)
      | RecvOutcome.fail e => (some (toRPCErr e), true)

/-- Embeds `func (a *csAttempt) recvMsg(m interface{}) (err error)`
(stream.go), deferred handler included: `cs.finish(err)` runs whenever the
result is an error or the call is not server-streaming. -/
def recvMsg (i : RecvMsgInput) : RecvMsgResult :=
  let r := recvMsgRaw i
  { err := r.1
    secondReadDone := r.2
    finishCalled := decide (r.1 ≠ none) || !i.serverStreams }

/-- C4: for a non-server-streaming stream whose first message is received
successfully, `recvMsg` performs a second framed read; if that read returns
another message the call fails with an Internal status (the client-streaming
protocol violation), and if it returns end-of-stream the call returns the
stream's final status error — nil when the status is OK. -/
theorem recvMsg_second_read_unary :
    ∀ i : RecvMsgInput, i.serverStreams = false → i.firstRecv = RecvOutcome.ok →
      (recvMsg i).secondReadDone = true
      ∧ (i.secondRecv = RecvOutcome.ok →
          (recvMsg i).err = some (GoError.status StatusCode.internal))
      ∧ (i.secondRecv = RecvOutcome.eofR → (recvMsg i).err = i.statusErr)
      ∧ (i.secondRecv = RecvOutcome.eofR → i.statusErr = none →
          (recvMsg i).err = none) := by
  intro i hs hf
  obtain ⟨ss, fr, sr, st⟩ := i
  simp only at hs hf
  subst hs; subst hf
  refine ⟨?_, ?_, ?_, ?_⟩
  · cases sr <;> simp [recvMsg, recvMsgRaw]
  · intro h2
    simp only at h2
    subst h2
    simp [recvMsg, recvMsgRaw, toRPCErr]
  · intro h2
    simp only at h2
    subst h2
    simp [recvMsg, recvMsgRaw]
  · intro h2 hst
    simp only at h2 hst
    subst h2; subst hst
    simp [recvMsg, recvMsgRaw]

theorem recvMsg_second_read_unary_witness :
    (recvMsg ⟨false, RecvOutcome.ok, RecvOutcome.ok, none⟩).err
      = some (GoError.status StatusCode.internal)
    ∧ (recvMsg ⟨false, RecvOutcome.ok, RecvOutcome.ok, none⟩).secondReadDone = true
    ∧ (recvMsg ⟨false, RecvOutcome.ok, RecvOutcome.eofR, none⟩).err = none :=
  ⟨(recvMsg_second_read_unary ⟨false, RecvOutcome.ok, RecvOutcome.ok, none⟩
      rfl rfl).2.1 rfl,
   (recvMsg_second_read_unary ⟨false, RecvOutcome.ok, RecvOutcome.ok, none⟩
      rfl rfl).1,
   (recvMsg_second_read_unary ⟨false, RecvOutcome.ok, RecvOutcome.eofR, none⟩
      rfl rfl).2.2.2 rfl rfl⟩

/-! ### call.go: the unary `invoke` retry loop -/

/-- What one iteration of the `invoke` loop observes: the result of
`newClientStream`, of `cs.SendMsg(req)` together with the transport's
`Unprocessed()` report, and of `cs.RecvMsg(reply)` with its `Unprocessed()`
report. -/
structure AttemptSpec where
  newStreamErr : Option GoError
  sendErr : Option GoError
  sendUnprocessed : Bool
  recvErr : Option GoError
  recvUnprocessed : Bool
deriving DecidableEq, Repr

/-- One iteration of the `invoke` loop (call.go): `some r` means the loop
returns `r` (`Except.error e` for `return err`, `Except.ok ()` for
`return nil`); `none` means `continue` (a transparent retry). A retry happens
only on a SendMsg/RecvMsg error with `!cs.c.failFast &&
cs.attempt.s.Unprocessed() && firstAttempt`. -/
def invokeIter (failFast firstAttempt : Bool) (a : AttemptSpec) :
    Option (Except GoError Unit) :=
  match a.newStreamErr with
  | some e => some (Except.error e)
  | none =>
    match a.sendErr with
    | some e =>
      if !failFast && a.sendUnprocessed && firstAttempt then none
      else some (Except.error e)
    | none =>
      match a.recvErr with
      | some e =>
        if !failFast && a.recvUnprocessed && firstAttempt then none
        else some (Except.error e)
      | none => some (Except.ok ())

/-- Embeds `func invoke(...)` (call.go) run against a list of per-iteration
observations, starting with `firstAttempt`. Returns the final result (none if
the observation list is exhausted) and the number of loop iterations, i.e.
the number of `newClientStream` calls made. -/
def invokeRun (failFast : Bool) : Bool → List AttemptSpec →
    Option (Except GoError Unit) × Nat
  | _, [] => (none, 0)
  | firstAttempt, a :: rest =>
    match invokeIter failFast firstAttempt a with
    | some r => (some r, 1)
    | none =>
      let t := invokeRun failFast false rest
      (t.1, t.2 + 1)

theorem invokeIter_false_isSome (failFast : Bool) (a : AttemptSpec) :
    (invokeIter failFast false a).isSome = true := by
  obtain ⟨ns, se, su, re, ru⟩ := a
  cases ns <;> cases se <;> cases re <;> simp [invokeIter]

/-- C2: the `invoke` loop creates at most two client streams: a retry happens
only when fail-fast is false, the transport reported the request unprocessed,
and no retry has happened yet (`firstAttempt`); with `firstAttempt` false
every iteration returns, so the second attempt's error is surfaced to the
caller rather than retried. -/
theorem invoke_at_most_two_attempts :
    ∀ (failFast : Bool) (attempts : List AttemptSpec) (a : AttemptSpec)
      (first : Bool),
      (invokeRun failFast true attempts).2 ≤ 2
      ∧ (invokeIter failFast false a).isSome = true
      ∧ (invokeIter failFast first a = none →
          failFast = false ∧ first = true ∧ a.newStreamErr = none ∧
            ((a.sendErr.isSome = true ∧ a.sendUnprocessed = true)
              ∨ (a.sendErr = none ∧ a.recvErr.isSome = true
                  ∧ a.recvUnprocessed = true)))
      ∧ (∀ (a1 a2 : AttemptSpec) (rest : List AttemptSpec),
          invokeIter failFast true a1 = none →
            invokeRun failFast true (a1 :: a2 :: rest)
              = (invokeIter failFast false a2, 2)) := by
  intro failFast attempts a first
  have hsec : ∀ (rest : List AttemptSpec), (invokeRun failFast false rest).2 ≤ 1 := by
    intro rest
    cases rest with
    | nil => simp [invokeRun]
    | cons b rest2 =>
      obtain ⟨r, hr⟩ := Option.isSome_iff_exists.mp (invokeIter_false_isSome failFast b)
      simp [invokeRun, hr]
  refine ⟨?_, invokeIter_false_isSome failFast a, ?_, ?_⟩
  · cases attempts with
    | nil => simp [invokeRun]
    | cons b rest =>
      cases hit : invokeIter failFast true b with
      | some r => simp [invokeRun, hit]
      | none =>
        have := hsec rest
        simp only [invokeRun, hit]
        omega
  · intro hnone
    obtain ⟨ns, se, su, re, ru⟩ := a
    cases ns with
    | some e => simp [invokeIter] at hnone
    | none =>
      cases se with
      | some e =>
        simp only [invokeIter] at hnone
        by_cases hc : (!failFast && su && first) = true
        · rcases Bool.and_eq_true_iff.mp hc with ⟨hc1, hfirst⟩
          rcases Bool.and_eq_true_iff.mp hc1 with ⟨hff, hsu⟩
          refine ⟨by simpa using hff, hfirst, rfl, Or.inl ⟨rfl, hsu⟩⟩
        · rw [if_neg hc] at hnone
          exact absurd hnone (by simp)
      | none =>
        cases re with
        | some e =>
          simp only [invokeIter] at hnone
          by_cases hc : (!failFast && ru && first) = true
          · rcases Bool.and_eq_true_iff.mp hc with ⟨hc1, hfirst⟩
            rcases Bool.and_eq_true_iff.mp hc1 with ⟨hff, hru⟩
            refine ⟨by simpa using hff, hfirst, rfl, Or.inr ⟨rfl, rfl, hru⟩⟩
          · rw [if_neg hc] at hnone
            exact absurd hnone (by simp)
        | none => simp [invokeIter] at hnone
  · intro a1 a2 rest h1
    obtain ⟨r, hr⟩ := Option.isSome_iff_exists.mp (invokeIter_false_isSome failFast a2)
    simp [invokeRun, h1, hr]

theorem invoke_at_most_two_attempts_witness :
    (invokeRun false true
        [⟨none, some GoError.transportConnError, true, none, false⟩,
         ⟨none, none, false, none, false⟩]).2 = 2
    ∧ (invokeRun false true
        [⟨none, some GoError.transportConnError, true, none, false⟩,
         ⟨none, none, false, none, false⟩]).1 = some (Except.ok ())
    ∧ (false = false ∧ true = true ∧
        (⟨none, some GoError.transportConnError, true, none, false⟩ : AttemptSpec).newStreamErr = none ∧
        (((⟨none, some GoError.transportConnError, true, none, false⟩ : AttemptSpec).sendErr.isSome = true ∧
          (⟨none, some GoError.transportConnError, true, none, false⟩ : AttemptSpec).sendUnprocessed = true)
          ∨ ((⟨none, some GoError.transportConnError, true, none, false⟩ : AttemptSpec).sendErr = none ∧
             (⟨none, some GoError.transportConnError, true, none, false⟩ : AttemptSpec).recvErr.isSome = true ∧
             (⟨none, some GoError.transportConnError, true, none, false⟩ : AttemptSpec).recvUnprocessed = true))) :=
  have hthm := invoke_at_most_two_attempts false
    [⟨none, some GoError.transportConnError, true, none, false⟩,
     ⟨none, none, false, none, false⟩]
    ⟨none, some GoError.transportConnError, true, none, false⟩ true
  have hrun := hthm.2.2.2
    ⟨none, some GoError.transportConnError, true, none, false⟩
    ⟨none, none, false, none, false⟩ [] rfl
  ⟨by rw [hrun], by rw [hrun]; rfl, hthm.2.2.1 rfl⟩

/-! ### resolver_conn_wrapper.go: `NewAddress` and `NewServiceConfig` -/

/-- The buffered channels of a `ccResolverWrapper`: `addrCh` (addresses,
payload type `α`) and `scCh` (service-config strings, payload type `β`), both
created with `make(chan _, 1)`. A channel buffer is a queue; its length never
exceeds the capacity 1. -/
structure CCResolverWrapperChans (α β : Type) where
  addrCh : List α
  scCh : List β
deriving DecidableEq, Repr

/-- Channel state built by `newCCResolverWrapper` (resolver_conn_wrapper.go):
both one-slot buffers start empty. -/
def newCCResolverWrapperChans (α β : Type) : CCResolverWrapperChans α β :=
  ⟨[], []⟩

/-- The non-blocking receive `select { case <-ch: default: }`: removes the
pending value if there is one, otherwise does nothing. -/
def tryDrain {γ : Type} : List γ → List γ
  | [] => []
  | _ :: rest => rest

/-- A buffered send on a capacity-1 channel blocks exactly when the buffer
already holds a value. -/
def sendWouldBlock {γ : Type} (q : List γ) : Bool :=
  decide (q.length ≥ 1)

/-- Embeds `func (ccr *ccResolverWrapper) NewAddress(addrs []resolver.Address)`
(resolver_conn_wrapper.go): drain any pending value from `addrCh`, then
enqueue the new one. -/
def ccrNewAddress {α β : Type} (s : CCResolverWrapperChans α β) (addrs : α) :
    CCResolverWrapperChans α β :=
  { s with addrCh := tryDrain s.addrCh ++ [addrs] }

/-- Embeds `func (ccr *ccResolverWrapper) NewServiceConfig(sc string)`
(resolver_conn_wrapper.go): drain any pending value from `scCh`, then
enqueue the new one. -/
def ccrNewServiceConfig {α β : Type} (s : CCResolverWrapperChans α β) (sc : β) :
    CCResolverWrapperChans α β :=
  { s with scCh := tryDrain s.scCh ++ [sc] }

/-- C9: `NewAddress` / `NewServiceConfig` never block and keep at most one
pending value per channel: under the capacity invariant (≤ 1 pending value),
draining leaves the buffer empty so the send cannot block, and after the call
the buffer holds exactly the newly published value; the other channel is
untouched, the invariant is preserved, and the fresh wrapper state satisfies
it. -/
theorem ccResolverWrapper_one_slot :
    ∀ (s : CCResolverWrapperChans Nat Nat) (addrs sc : Nat),
      s.addrCh.length ≤ 1 → s.scCh.length ≤ 1 →
      sendWouldBlock (tryDrain s.addrCh) = false
      ∧ sendWouldBlock (tryDrain s.scCh) = false
      ∧ (ccrNewAddress s addrs).addrCh = [addrs]
      ∧ (ccrNewAddress s addrs).scCh = s.scCh
      ∧ (ccrNewServiceConfig s sc).scCh = [sc]
      ∧ (ccrNewServiceConfig s sc).addrCh = s.addrCh
      ∧ (ccrNewAddress s addrs).addrCh.length ≤ 1
      ∧ (ccrNewServiceConfig s sc).scCh.length ≤ 1
      ∧ (newCCResolverWrapperChans Nat Nat).addrCh.length ≤ 1
      ∧ (newCCResolverWrapperChans Nat Nat).scCh.length ≤ 1 := by
  intro s addrs sc ha hsc
  obtain ⟨aq, sq⟩ := s
  simp only at ha hsc
  have hda : tryDrain aq = [] := by
    cases aq with
    | nil => rfl
    | cons x rest =>
      cases rest with
      | nil => rfl
      | cons y rest2 => simp at ha
  have hds : tryDrain sq = [] := by
    cases sq with
    | nil => rfl
    | cons x rest =>
      cases rest with
      | nil => rfl
      | cons y rest2 => simp at hsc
  refine ⟨?_, ?_, ?_, rfl, ?_, rfl, ?_, ?_, by decide, by decide⟩
  · simp [hda, sendWouldBlock]
  · simp [hds, sendWouldBlock]
  · simp [ccrNewAddress, hda]
  · simp [ccrNewServiceConfig, hds]
  · simp [ccrNewAddress, hda]
  · simp [ccrNewServiceConfig, hds]

theorem ccResolverWrapper_one_slot_witness :
    (ccrNewAddress (⟨[7], [9]⟩ : CCResolverWrapperChans Nat Nat) 3).addrCh = [3]
    ∧ (ccrNewServiceConfig (⟨[7], [9]⟩ : CCResolverWrapperChans Nat Nat) 4).scCh = [4]
    ∧ sendWouldBlock (tryDrain (⟨[7], [9]⟩ : CCResolverWrapperChans Nat Nat).addrCh)
        = false :=
  have h := ccResolverWrapper_one_slot ⟨[7], [9]⟩ 3 4 (by decide) (by decide)
  ⟨h.2.2.1, h.2.2.2.2.1, h.1⟩
